import Mathlib

/-!
Verification development for the pynhanes decoding-and-alignment engine.

The repository snapshot ships only the README and the driver notebooks
(`parse_activity.ipynb`, `parse_userdata.ipynb`, `load_and_plot.ipynb`);
the library modules they call (transport decoding, mortality fixed-width
decoding, schema resolution, status encoding, epoch alignment) are not in
the snapshot.  Those components are therefore modelled here from the
specification, faithful to its words, and the notebook/README facts that
are present (the 0..4 wear-status legend, the 7-day canonical week of
`nhanes_triax.npz`, the `categ > 0` validity mask, the skipped mortality
parse when the .DAT file is absent) pin the concrete constants.
-/

namespace Nhanes

/-! ### Typed values and columns (spec section 3, RawRecord / ColumnDescriptor) -/

/-- Modelled from the spec: a typed value of a decoded column — numeric,
string (held as its character bytes), or the missing marker.  The concrete
decoder (`pynhanes` xport reading) is absent from the snapshot.  Numeric
payloads are modelled on the non-negative fixed-point lattice. -/
inductive TypedValue where
  | num (n : Nat) : TypedValue
  | str (bytes : List Nat) : TypedValue
  | missing : TypedValue
deriving DecidableEq, Repr

/-- Modelled from the spec: declared column type tag of the transport format. -/
inductive CType where
  | num : CType
  | strg : CType
deriving DecidableEq, Repr

/-- Modelled from the spec: name, declared type, byte width, byte offset
within a fixed-width row, and the sentinel value reserved to mean
"missing" for a numeric column. -/
structure ColumnDescriptor where
  name : String
  ctype : CType
  width : Nat
  offset : Nat
  sentinel : Nat
deriving DecidableEq, Repr

/-- Modelled from the spec: self-describing header — column table plus the
declared row width and declared record count. -/
structure TransportHeader where
  columns : List ColumnDescriptor
  rowWidth : Nat
  declaredCount : Nat
deriving DecidableEq, Repr

/-- Modelled from the spec: one decoded row, a mapping from variable code
(column name) to its typed value. -/
abbrev RawRecord := List (String × TypedValue)

/-- Big-endian base-256 value of a byte slice. -/
def decodeNat (bytes : List Nat) : Nat :=
  bytes.foldl (fun a b => 256 * a + b) 0

/-- Big-endian base-256 encoding of `n` on exactly `w` bytes. -/
def encodeNat : Nat → Nat → List Nat
  | 0, _ => []
  | w + 1, n => encodeNat w (n / 256) ++ [n % 256]

/-- Space byte used to pad string columns. -/
def padByte : Nat := 32

/-- Trailing-pad trim applied to string columns on read. -/
def trimTrailingPad (bytes : List Nat) : List Nat :=
  (bytes.reverse.dropWhile (· == padByte)).reverse

/-- Modelled from the spec: layout check that column offsets are
consecutive starting from byte `k` (monotonic and non-overlapping). -/
def layoutFrom : Nat → List ColumnDescriptor → Bool
  | _, [] => true
  | k, c :: cs => c.offset == k && layoutFrom (k + c.width) cs

/-- Modelled from the spec: internal consistency of a declared header —
columns tile the row without gaps and the widths sum to the declared
nonzero row width. -/
def headerConsistent (h : TransportHeader) : Bool :=
  layoutFrom 0 h.columns
    && ((h.columns.map (·.width)).sum == h.rowWidth)
    && h.rowWidth != 0

/-- Modelled from the spec: decode one column of a fixed-width row.
Numeric columns decode their declared encoding and map the column's
missing-value sentinel to the missing marker; string columns are trimmed
of padding on read. -/
def decodeField (c : ColumnDescriptor) (row : List Nat) : TypedValue :=
  let bytes := (row.drop c.offset).take c.width
  match c.ctype with
  | .num =>
      let v := decodeNat bytes
      if v = c.sentinel then .missing else .num v
  | .strg => .str (trimTrailingPad bytes)

/-- Modelled from the spec: decode a full fixed-width row into a RawRecord. -/
def decodeRecord (h : TransportHeader) (row : List Nat) : RawRecord :=
  h.columns.map fun c => (c.name, decodeField c row)

/-- Split the body into complete fixed-width rows, reading at most the
declared record count and stopping at the first incomplete row. -/
def readRows (rw : Nat) : Nat → List Nat → List (List Nat)
  | 0, _ => []
  | count + 1, body =>
      if rw ≤ body.length then body.take rw :: readRows rw count (body.drop rw)
      else []

/-- Modelled from the spec: fatal decode failure — the declared header is
internally inconsistent. -/
inductive DecodeError where
  | headerInconsistent : DecodeError
deriving DecidableEq, Repr

/-- Modelled from the spec: recoverable report that the body held fewer
complete rows than the header declared. -/
inductive TransportWarning where
  | truncated : TransportWarning
deriving DecidableEq, Repr

/-- Modelled from the spec: the TransportDecoder.  Given a header and the
body bytes it returns the decoded RawRecords together with the warnings,
or fails with `DecodeError` when the header is internally inconsistent.
Truncated bodies yield the rows that are fully present plus a
`TruncatedFileWarning`; they never fail. -/
def decodeFile (h : TransportHeader) (body : List Nat) :
    Except DecodeError (List RawRecord × List TransportWarning) :=
  if headerConsistent h then
    let rows := readRows h.rowWidth h.declaredCount body
    let warns : List TransportWarning :=
      if rows.length < h.declaredCount then [.truncated] else []
    .ok (rows.map (decodeRecord h), warns)
  else
    .error .headerInconsistent

/-! ### Synthetic encoding used to state the round-trip property -/

/-- Encode one typed value on the column's declared width: numerics in the
declared base-256 encoding, the missing marker as the column's sentinel,
strings padded to the width. -/
def encodeValue (c : ColumnDescriptor) : TypedValue → List Nat
  | .num n => encodeNat c.width n
  | .missing => encodeNat c.width c.sentinel
  | .str bytes => bytes ++ List.replicate (c.width - bytes.length) padByte

/-- Check that a typed value is representable in a column: numerics fit
the width and avoid the sentinel, the sentinel itself fits the width, and
strings fit the width without trailing pad bytes. -/
def fitsCol (c : ColumnDescriptor) : TypedValue → Bool
  | .num n => c.ctype == .num && decide (n < 256 ^ c.width) && n != c.sentinel
  | .missing => c.ctype == .num && decide (c.sentinel < 256 ^ c.width)
  | .str bytes =>
      c.ctype == .strg && decide (bytes.length ≤ c.width)
        && bytes.getLast? != some padByte

/-- Check a whole row of typed values against the column table. -/
def rowFits : List ColumnDescriptor → List TypedValue → Bool
  | [], [] => true
  | c :: cs, v :: vs => fitsCol c v && rowFits cs vs
  | _, _ => false

/-- Concatenate the per-column encodings of one row. -/
def encodeRow : List ColumnDescriptor → List TypedValue → List Nat
  | c :: cs, v :: vs => encodeValue c v ++ encodeRow cs vs
  | _, _ => []

/-- Concatenate the encodings of all rows into a body byte stream. -/
def encodeRows (h : TransportHeader) : List (List TypedValue) → List Nat
  | [] => []
  | r :: rs => encodeRow h.columns r ++ encodeRows h rs

/-- RawRecord expected for a row of original typed values. -/
def recordOfRow (h : TransportHeader) (r : List TypedValue) : RawRecord :=
  (h.columns.map (·.name)).zip r

/-- Concrete header used to instantiate the transport theorems. -/
def w1Header : TransportHeader :=
  { columns :=
      [ { name := "SEQN", ctype := .num, width := 2, offset := 0, sentinel := 65535 }
      , { name := "VAL", ctype := .num, width := 1, offset := 2, sentinel := 255 }
      , { name := "TAG", ctype := .strg, width := 2, offset := 3, sentinel := 0 } ]
    rowWidth := 5
    declaredCount := 2 }

/-- Concrete rows (one field holds the missing marker) used to instantiate
the transport round-trip theorem. -/
def w1Rows : List (List TypedValue) :=
  [ [.num 1, .num 7, .str [65]]
  , [.num 2, .missing, .str []] ]

/-- Concrete header declaring ten one-byte records, used to instantiate
the truncation theorem. -/
def w2Header : TransportHeader :=
  { columns := [ { name := "B", ctype := .num, width := 1, offset := 0, sentinel := 255 } ]
    rowWidth := 1
    declaredCount := 10 }

/-- Concrete 7-byte body (seven complete rows of `w2Header`). -/
def w2Body : List Nat := [10, 20, 30, 40, 50, 60, 70]

/-! ### Sensor generations and the StatusEncoder (spec section 4.4; README
wear-status legend: 0 - Missing, 1 - Wake wear, 2 - Sleep wear,
3 - Non wear, 4 - Unknown) -/

/-- Sensor generation: `legacy` is the 2003-2006 count/step device,
`triax` the 2011-2014 triaxial minute-level device. -/
inductive Generation where
  | legacy : Generation
  | triax : Generation
deriving DecidableEq, Repr

/-- Unified wear-status domain of the README legend. -/
inductive UnifiedStatus where
  | MISSING : UnifiedStatus
  | WAKE_WEAR : UnifiedStatus
  | SLEEP_WEAR : UnifiedStatus
  | NON_WEAR : UnifiedStatus
  | UNKNOWN : UnifiedStatus
deriving DecidableEq, Repr

/-- Integer code of a unified status as persisted in the status tensor
(the `categ` array of `nhanes_triax.npz`): the README legend order. -/
def statusCode : UnifiedStatus → Nat
  | .MISSING => 0
  | .WAKE_WEAR => 1
  | .SLEEP_WEAR => 2
  | .NON_WEAR => 3
  | .UNKNOWN => 4

/-- Modelled from the spec: the StatusEncoder — a fixed generation-specific
lookup from raw status codes into the unified domain.  The newer
generation's table is the README 0..4 legend; the older generation exposes
only the wear/non-wear subset; raw codes outside a generation's table map
to UNKNOWN rather than failing. -/
def statusEncode (g : Generation) (code : Nat) : UnifiedStatus :=
  match g with
  | .triax =>
      if code = 0 then .MISSING
      else if code = 1 then .WAKE_WEAR
      else if code = 2 then .SLEEP_WEAR
      else if code = 3 then .NON_WEAR
      else if code = 4 then .UNKNOWN
      else .UNKNOWN
  | .legacy =>
      if code = 0 then .NON_WEAR
      else if code = 1 then .WAKE_WEAR
      else .UNKNOWN

/-- Size of the documented raw-status table of a generation: raw codes at
or beyond this bound are outside the table. -/
def tableSize : Generation → Nat
  | .legacy => 2
  | .triax => 5

/-! ### EpochAligner (spec sections 3, 4.5; the notebook's 7-day canonical
week for `nhanes_triax.npz`) -/

/-- Modelled from the spec: length of the canonical week retained in the
aligned tensor (the notebook's 7-day `nhanes_triax.npz`). -/
def CANONICAL_DAYS : Nat := 7

/-- Modelled from the spec: epochs per calendar day for each generation —
both generations record one-minute epochs. -/
def EPOCHS_PER_DAY : Generation → Nat
  | .legacy => 1440
  | .triax => 1440

/-- Channel count per generation: activity counts only for the older
generation, acceleration plus ambient light for the newer one. -/
def channelCount : Generation → Nat
  | .legacy => 1
  | .triax => 2

/-- Modelled from the spec: one raw epoch reading — channel values plus
the raw status code. -/
structure EpochReading where
  channels : List Nat
  rawStatus : Nat
deriving DecidableEq, Repr

/-- Modelled from the spec: one subject's ordered raw epoch stream plus
its metadata. -/
structure SubjectEpochSeries where
  subjectId : Nat
  generation : Generation
  startWeekday : Nat
  epochs : List EpochReading
deriving DecidableEq, Repr

/-- One cell of the aligned tensor: channel values, unified status, and
the parallel validity-mask bit. -/
structure AlignedCell where
  channels : List Nat
  status : UnifiedStatus
  valid : Bool
deriving DecidableEq, Repr

/-- One subject's aligned tensor row together with its scalar metadata. -/
structure AlignedRow where
  subjectId : Nat
  startWeekday : Nat
  days : List (List AlignedCell)
deriving DecidableEq, Repr

/-- Modelled from the spec: per-subject exclusion record of the error
taxonomy (`SubjectExcluded`). -/
structure SubjectExcluded where
  subjectId : Nat
  reason : String
deriving DecidableEq, Repr

/-- Cell for a structurally absent epoch: invalid mask bit, MISSING
status, zero channels — absence is carried by the mask, never by the
numeric channel alone. -/
def invalidCell (g : Generation) : AlignedCell :=
  { channels := List.replicate (channelCount g) 0
    status := .MISSING
    valid := false }

/-- Cell decoded from one raw epoch reading: the epoch-level mask bit is
false exactly when the unified status is MISSING. -/
def cellOf (g : Generation) (r : EpochReading) : AlignedCell :=
  { channels := r.channels
    status := statusEncode g r.rawStatus
    valid := statusEncode g r.rawStatus != .MISSING }

/-- Number of (possibly partial) calendar-day buckets present in a raw
stream, by elapsed epoch count. -/
def dayCount (g : Generation) (epochs : List EpochReading) : Nat :=
  (epochs.length + (EPOCHS_PER_DAY g - 1)) / EPOCHS_PER_DAY g

/-- Calendar-day bucket `i` of the raw stream: the epochs are partitioned
by elapsed epoch count, EPOCHS_PER_DAY at a time. -/
def bucket (g : Generation) (epochs : List EpochReading) (i : Nat) :
    List EpochReading :=
  (epochs.drop (i * EPOCHS_PER_DAY g)).take (EPOCHS_PER_DAY g)

/-- Day slot made from one (possibly partial) bucket: covered epochs keep
their decoded cells; the uncovered remainder of the day is invalid. -/
def padDay (g : Generation) (b : List EpochReading) : List AlignedCell :=
  b.map (cellOf g) ++ List.replicate (EPOCHS_PER_DAY g - b.length) (invalidCell g)

/-- Fully-invalid day slot for day slots beyond the recorded stream. -/
def invalidDay (g : Generation) : List AlignedCell :=
  List.replicate (EPOCHS_PER_DAY g) (invalidCell g)

/-- Modelled from the spec: day slots of the aligned row — slot `i` holds
the `i`-th earliest bucket when one is present (buckets past
CANONICAL_DAYS are discarded) and is fully invalid otherwise. -/
def alignDays (g : Generation) (epochs : List EpochReading) :
    List (List AlignedCell) :=
  (List.range CANONICAL_DAYS).map fun i =>
    if i < dayCount g epochs then padDay g (bucket g epochs i) else invalidDay g

/-- Check that a stream holds at least one epoch whose unified status is
not MISSING. -/
def hasValidEpoch (s : SubjectEpochSeries) : Bool :=
  s.epochs.any fun r => statusEncode s.generation r.rawStatus != .MISSING

/-- Modelled from the spec: the EpochAligner.  A subject with zero valid
epochs is excluded with reason "no valid epochs"; otherwise the raw stream
is folded into the canonical day-slot grid with its validity mask. -/
def align (s : SubjectEpochSeries) : Except SubjectExcluded AlignedRow :=
  if hasValidEpoch s then
    .ok { subjectId := s.subjectId
          startWeekday := s.startWeekday
          days := alignDays s.generation s.epochs }
  else
    .error { subjectId := s.subjectId, reason := "no valid epochs" }

/-- Aligned-row outcome of one subject, as an option. -/
def rowOf (s : SubjectEpochSeries) : Option AlignedRow :=
  (align s).toOption

/-- Exclusion outcome of one subject, as an option. -/
def exclOf (s : SubjectEpochSeries) : Option SubjectExcluded :=
  match align s with
  | .error e => some e
  | .ok _ => none

/-- Aligned rows of the subjects that succeed, in input order. -/
def alignedRows (subjects : List SubjectEpochSeries) : List AlignedRow :=
  subjects.filterMap rowOf

/-- Exclusion list collected from the subjects that fail, in input order. -/
def exclusions (subjects : List SubjectEpochSeries) : List SubjectExcluded :=
  subjects.filterMap exclOf

/-! ### Deterministic final assembly (spec section 5) -/

/-- Key order used by the final assembly: ascending subject identifier. -/
def bySubject {α : Type} (key : α → Nat) (a b : α) : Prop := key a ≤ key b

instance {α : Type} (key : α → Nat) : DecidableRel (bySubject key) :=
  fun _ _ => Nat.decLe _ _

/-- Modelled from the spec: the deterministic final assembly — align every
subject, then order the rows and the exclusion list by subject identifier
once, after assembly, independent of task completion order. -/
def finalOutput (subjects : List SubjectEpochSeries) :
    List AlignedRow × List SubjectExcluded :=
  ( List.insertionSort (bySubject (·.subjectId)) (alignedRows subjects)
  , List.insertionSort (bySubject (·.subjectId)) (exclusions subjects) )

/-! ### Persisted newer-generation archive (the loading notebook's
`nhanes_triax.npz` with its `categ > 0` mask) -/

/-- Modelled from the spec: the persisted archive of the newer generation
— subject ids, acceleration, ambient light, and unified status arrays in
one shared row order. -/
structure TriaxArchive where
  seqn : List Nat
  triax : List (List Nat)
  lumin : List (List Nat)
  categ : List (List Nat)
deriving DecidableEq, Repr

/-- Flatten one subject's day grid in (day_slot, epoch_in_day) order. -/
def flatCells (row : AlignedRow) : List AlignedCell :=
  row.days.flatten

/-- Modelled from the spec: build the persisted archive from the aligned
rows — one row per included subject, each array reading one component per
cell of the same flattened grid. -/
def buildArchive (subjects : List SubjectEpochSeries) : TriaxArchive :=
  { seqn := (alignedRows subjects).map (·.subjectId)
    triax := (alignedRows subjects).map fun r =>
      (flatCells r).map fun c => c.channels.getD 0 0
    lumin := (alignedRows subjects).map fun r =>
      (flatCells r).map fun c => c.channels.getD 1 0
    categ := (alignedRows subjects).map fun r =>
      (flatCells r).map fun c => statusCode c.status }

/-- Validity-mask rows of the aligned rows, flattened in the same order as
the archive arrays. -/
def maskRows (subjects : List SubjectEpochSeries) : List (List Bool) :=
  (alignedRows subjects).map fun r => (flatCells r).map (·.valid)

/-! ### MortalityFixedDecoder (spec section 4.2; README step 7) -/

/-- Modelled from the spec: one column of the externally supplied fixed
layout of a mortality follow-up file. -/
structure MortColumn where
  name : String
  start : Nat
  width : Nat
deriving DecidableEq, Repr

/-- Modelled from the spec: the full fixed layout — column positions plus
the expected row width, supplied as static configuration. -/
structure FixedLayout where
  cols : List MortColumn
  rowWidth : Nat
deriving DecidableEq, Repr

/-- Modelled from the spec: mismatch report carrying the offending row's
length and the expected fixed width. -/
structure SchemaMismatch where
  rowLength : Nat
  expected : Nat
deriving DecidableEq, Repr

/-- Field slice of one fixed-width mortality row. -/
def sliceField (row : List Nat) (c : MortColumn) : List Nat :=
  (row.drop c.start).take c.width

/-- Modelled from the spec: decode one mortality row, failing with a
`SchemaMismatch` when its length differs from the expected fixed width. -/
def decodeMortRow (layout : FixedLayout) (row : List Nat) :
    Except SchemaMismatch (List (String × List Nat)) :=
  if row.length = layout.rowWidth then
    .ok (layout.cols.map fun c => (c.name, sliceField row c))
  else
    .error { rowLength := row.length, expected := layout.rowWidth }

/-- Modelled from the spec: the MortalityFixedDecoder over a whole file —
fatal for the offending file at the first mismatching row. -/
def decodeMortFile (layout : FixedLayout) :
    List (List Nat) → Except SchemaMismatch (List (List (String × List Nat)))
  | [] => .ok []
  | r :: rs =>
      match decodeMortRow layout r with
      | .error e => .error e
      | .ok m =>
          match decodeMortFile layout rs with
          | .error e => .error e
          | .ok ms => .ok (m :: ms)

/-- Modelled from the spec and README step 7: when the mortality .DAT file
is absent the parse is skipped and mortality variables are structurally
unavailable (`none`) for the run, rather than the pipeline failing. -/
def mortalityStep (layout : FixedLayout) (file : Option (List (List Nat))) :
    Except SchemaMismatch (Option (List (List (String × List Nat)))) :=
  match file with
  | none => .ok none
  | some rows => (decodeMortFile layout rows).map some

/-! ### SchemaResolver (spec section 4.3; the notebooks' alternative-code
lists such as SMQ020 / SMQ120 / SMQ150) -/

/-- Column data of one decoded variable code within one survey year. -/
abbrev ColumnData := List TypedValue

/-- Look up a variable code among the decoded columns of one year. -/
def lookupCol (code : String) : List (String × ColumnData) → Option ColumnData
  | [] => none
  | (c, d) :: rest => if c = code then some d else lookupCol code rest

/-- Modelled from the spec: resolve one logical variable within one year,
taking the first alternative code present among the year's decoded
columns. -/
def resolveVar (alts : List String) (cols : List (String × ColumnData)) :
    Option (String × ColumnData) :=
  match alts with
  | [] => none
  | a :: rest =>
      match lookupCol a cols with
      | some d => some (a, d)
      | none => resolveVar rest cols

/-- Modelled from the spec: per-year resolution of one logical variable
over all survey years. -/
def resolveYears (alts : List String)
    (years : List (Nat × List (String × ColumnData))) :
    List (Nat × Option (String × ColumnData)) :=
  years.map fun y => (y.1, resolveVar alts y.2)

/-- Modelled from the spec: the `VariableUnavailable` records for one
logical variable — the years in which no alternative code resolves. -/
def unavailableYears (alts : List String)
    (years : List (Nat × List (String × ColumnData))) : List Nat :=
  (years.filter fun y => (resolveVar alts y.2).isNone).map (·.1)

/-! ### Concrete inputs used by the remaining witnesses -/

/-- Concrete subject series with two valid epochs, used by the aligner
witnesses. -/
def wSeriesA : SubjectEpochSeries :=
  { subjectId := 2
    generation := .triax
    startWeekday := 3
    epochs := [ { channels := [5, 9], rawStatus := 1 }
              , { channels := [0, 0], rawStatus := 0 } ] }

/-- Concrete subject series whose every epoch has MISSING status, used by
the exclusion witness. -/
def wSeriesB : SubjectEpochSeries :=
  { subjectId := 1
    generation := .triax
    startWeekday := 6
    epochs := [ { channels := [4, 4], rawStatus := 0 } ] }

/-- Concrete alternative-code list of one logical variable, used by the
schema-resolution witness. -/
def w6Alts : List String := ["SMD090", "SMD650"]

/-- Concrete decoded columns of a year holding only the second alternative
code. -/
def w6Cols1 : List (String × ColumnData) := [("SMD650", [.num 3])]

/-- Concrete decoded year table: year 1 holds only the second alternative,
year 2 holds neither. -/
def w6Years : List (Nat × List (String × ColumnData)) :=
  [(1, w6Cols1), (2, [("RIDAGEYR", [.num 40])])]

/-- Concrete mortality layout, used by the mortality witness. -/
def w8Layout : FixedLayout :=
  { cols := [ { name := "MORTSTAT", start := 0, width := 1 }
            , { name := "PERMTH_INT", start := 1, width := 3 } ]
    rowWidth := 4 }

/-- Concrete mortality file whose second row is one byte short. -/
def w8Rows : List (List Nat) := [[1, 2, 3, 4], [1, 2, 3]]

/-! ### Lemmas about the byte-level codecs -/

theorem encodeNat_length (w n : Nat) : (encodeNat w n).length = w := by
  induction w generalizing n with
  | zero => rfl
  | succ w ih => simp [encodeNat, ih]

theorem decodeNat_append (xs : List Nat) (b : Nat) :
    decodeNat (xs ++ [b]) = 256 * decodeNat xs + b := by
  simp [decodeNat, List.foldl_append]

theorem decode_encodeNat (w n : Nat) (h : n < 256 ^ w) :
    decodeNat (encodeNat w n) = n := by
  induction w generalizing n with
  | zero =>
      simp only [pow_zero, Nat.lt_one_iff] at h
      simp [h, encodeNat, decodeNat]
  | succ w ih =>
      have hdiv : n / 256 < 256 ^ w := by
        rw [Nat.div_lt_iff_lt_mul (by norm_num)]
        calc n < 256 ^ (w + 1) := h
        _ = 256 ^ w * 256 := by rw [pow_succ]
      rw [encodeNat, decodeNat_append, ih _ hdiv]
      omega

theorem trim_append_pad (bytes : List Nat) (k : Nat)
    (h : bytes.getLast? ≠ some padByte) :
    trimTrailingPad (bytes ++ List.replicate k padByte) = bytes := by
  unfold trimTrailingPad
  rw [List.reverse_append, List.reverse_replicate]
  have hrep : ∀ m, List.dropWhile (· == padByte)
      (List.replicate m padByte ++ bytes.reverse)
      = List.dropWhile (· == padByte) bytes.reverse := by
    intro m
    induction m with
    | zero => rfl
    | succ m ih => simp [List.replicate_succ, List.dropWhile, ih]
  rw [hrep]
  cases hb : bytes.reverse with
  | nil =>
      have : bytes = [] := by simpa using congrArg List.reverse hb
      simp [this]
  | cons a t =>
      have hlast : bytes.getLast? = some a := by
        rw [← List.head?_reverse, hb]; rfl
      have ha : (a == padByte) = false := by
        have : a ≠ padByte := fun e => h (by rw [hlast, e])
        simpa using this
      rw [List.dropWhile_cons_of_neg (by simp [ha])]
      rw [← hb, List.reverse_reverse]

theorem encodeValue_length (c : ColumnDescriptor) (v : TypedValue)
    (h : fitsCol c v = true) : (encodeValue c v).length = c.width := by
  cases v with
  | num n => simp [encodeValue, encodeNat_length]
  | missing => simp [encodeValue, encodeNat_length]
  | str bytes =>
      simp only [fitsCol, Bool.and_eq_true, decide_eq_true_eq] at h
      simp only [encodeValue, List.length_append, List.length_replicate]
      omega

theorem decodeField_encode (c : ColumnDescriptor) (v : TypedValue)
    (pre rest : List Nat) (hoff : c.offset = pre.length)
    (hfit : fitsCol c v = true) :
    decodeField c (pre ++ (encodeValue c v ++ rest)) = v := by
  have hslice : ((pre ++ (encodeValue c v ++ rest)).drop c.offset).take c.width
      = encodeValue c v := by
    rw [hoff, List.drop_left, ← encodeValue_length c v hfit, List.take_left]
  cases v with
  | num n =>
      simp only [fitsCol, Bool.and_eq_true, beq_iff_eq, bne_iff_ne,
        decide_eq_true_eq] at hfit
      simp only [decodeField, hfit.1.1]
      rw [hslice]
      simp only [encodeValue, decode_encodeNat _ _ hfit.1.2]
      rw [if_neg hfit.2]
  | missing =>
      simp only [fitsCol, Bool.and_eq_true, beq_iff_eq, decide_eq_true_eq] at hfit
      simp only [decodeField, hfit.1]
      rw [hslice]
      simp [encodeValue, decode_encodeNat _ _ hfit.2]
  | str bytes =>
      simp only [fitsCol, Bool.and_eq_true, beq_iff_eq, bne_iff_ne,
        decide_eq_true_eq] at hfit
      simp only [decodeField, hfit.1.1]
      rw [hslice]
      simp only [encodeValue]
      rw [trim_append_pad _ _ hfit.2]

theorem rowFits_length (cols : List ColumnDescriptor) (vals : List TypedValue)
    (h : rowFits cols vals = true) : cols.length = vals.length := by
  induction cols generalizing vals with
  | nil => cases vals with
    | nil => rfl
    | cons v vs => exact absurd h (by simp [rowFits])
  | cons c cs ih =>
      cases vals with
      | nil => exact absurd h (by simp [rowFits])
      | cons v vs =>
          simp only [rowFits, Bool.and_eq_true] at h
          simp [ih vs h.2]

theorem decodeRecord_cols (cols : List ColumnDescriptor) (vals : List TypedValue)
    (pre rest : List Nat)
    (hl : layoutFrom pre.length cols = true)
    (hf : rowFits cols vals = true) :
    cols.map (fun c => (c.name, decodeField c (pre ++ (encodeRow cols vals ++ rest))))
      = (cols.map (·.name)).zip vals := by
  induction cols generalizing vals pre with
  | nil =>
      cases vals with
      | nil => rfl
      | cons v vs => exact absurd hf (by simp [rowFits])
  | cons c cs ih =>
      cases vals with
      | nil => exact absurd hf (by simp [rowFits])
      | cons v vs =>
          simp only [rowFits, Bool.and_eq_true] at hf
          simp only [layoutFrom, Bool.and_eq_true, beq_iff_eq] at hl
          have hrow : pre ++ (encodeRow (c :: cs) (v :: vs) ++ rest)
              = (pre ++ encodeValue c v) ++ (encodeRow cs vs ++ rest) := by
            simp [encodeRow]
          have hhead :
              decodeField c (pre ++ (encodeRow (c :: cs) (v :: vs) ++ rest)) = v := by
            rw [show pre ++ (encodeRow (c :: cs) (v :: vs) ++ rest)
                = pre ++ (encodeValue c v ++ (encodeRow cs vs ++ rest)) by
              simp [encodeRow]]
            exact decodeField_encode c v pre _ hl.1 hf.1
          have hlen : (pre ++ encodeValue c v).length = pre.length + c.width := by
            simp [encodeValue_length c v hf.1]
          have htail := ih vs (pre ++ encodeValue c v) (by rw [hlen]; exact hl.2) hf.2
          simp only [List.map_cons, List.zip_cons_cons, hhead]
          rw [hrow]
          rw [htail]

theorem encodeRow_length (cols : List ColumnDescriptor) (vals : List TypedValue)
    (hf : rowFits cols vals = true) :
    (encodeRow cols vals).length = (cols.map (·.width)).sum := by
  induction cols generalizing vals with
  | nil =>
      cases vals with
      | nil => simp [encodeRow]
      | cons v vs => exact absurd hf (by simp [rowFits])
  | cons c cs ih =>
      cases vals with
      | nil => exact absurd hf (by simp [rowFits])
      | cons v vs =>
          simp only [rowFits, Bool.and_eq_true] at hf
          simp [encodeRow, encodeValue_length c v hf.1, ih vs hf.2]

theorem readRows_encodeRows (h : TransportHeader) (rows : List (List TypedValue))
    (hc : headerConsistent h = true)
    (hf : ∀ r ∈ rows, rowFits h.columns r = true) :
    readRows h.rowWidth rows.length (encodeRows h rows)
      = rows.map (encodeRow h.columns) := by
  simp only [headerConsistent, Bool.and_eq_true, beq_iff_eq] at hc
  induction rows with
  | nil => simp [readRows, encodeRows]
  | cons r rs ih =>
      have hfr : rowFits h.columns r = true := hf r (by simp)
      have hlen : (encodeRow h.columns r).length = h.rowWidth := by
        rw [encodeRow_length _ _ hfr, hc.1.2]
      rw [encodeRows, List.length_cons, readRows]
      rw [if_pos (by simp [hlen])]
      rw [show (encodeRow h.columns r ++ encodeRows h rs).take h.rowWidth
          = encodeRow h.columns r by rw [← hlen, List.take_left]]
      rw [show (encodeRow h.columns r ++ encodeRows h rs).drop h.rowWidth
          = encodeRows h rs by rw [← hlen, List.drop_left]]
      rw [ih (fun x hx => hf x (by simp [hx]))]
      rfl

theorem decodeRecord_encodeRow (h : TransportHeader) (r : List TypedValue)
    (hc : headerConsistent h = true) (hf : rowFits h.columns r = true) :
    decodeRecord h (encodeRow h.columns r) = recordOfRow h r := by
  have hl : layoutFrom 0 h.columns = true := by
    simp only [headerConsistent, Bool.and_eq_true] at hc
    exact hc.1.1
  have hcols := decodeRecord_cols h.columns r [] []
    (by simpa using hl) hf
  simpa [decodeRecord, recordOfRow] using hcols

theorem readRows_length (rw : Nat) (hrw : 0 < rw) (count : Nat) (body : List Nat) :
    (readRows rw count body).length = min count (body.length / rw) := by
  induction count generalizing body with
  | zero => simp [readRows]
  | succ c ih =>
      by_cases hle : rw ≤ body.length
      · rw [readRows, if_pos hle]
        have hsub : body.length / rw = (body.length - rw) / rw + 1 :=
          Nat.div_eq_sub_div hrw hle
        simp only [List.length_cons, ih, List.length_drop]
        omega
      · rw [readRows, if_neg hle]
        have h0 : body.length / rw = 0 := Nat.div_eq_of_lt (by omega)
        simp [h0]

/-- C1: for every synthetically constructed transport byte stream whose
consistent header declares exactly the encoded rows of known typed values,
at least one field of which holds the missing marker (encoded as the
column's sentinel), `decodeFile` returns exactly those rows as RawRecords
whose typed values equal the originals; in particular every sentinel field
decodes back to the missing marker, never to a numeric zero. -/
theorem transport_decode_roundtrip (h : TransportHeader)
    (rows : List (List TypedValue))
    (hc : headerConsistent h = true)
    (hn : h.declaredCount = rows.length)
    (hf : ∀ r ∈ rows, rowFits h.columns r = true)
    (_hmiss : rows.any (fun r => r.any (· == TypedValue.missing)) = true) :
    decodeFile h (encodeRows h rows) = .ok (rows.map (recordOfRow h), [])
      ∧ ∀ r ∈ rows, (recordOfRow h r).map Prod.snd = r := by
  constructor
  · unfold decodeFile
    rw [if_pos hc, hn, readRows_encodeRows h rows hc hf]
    simp only [List.length_map, lt_irrefl, if_false]
    rw [List.map_map]
    have hrec : rows.map (decodeRecord h ∘ encodeRow h.columns)
        = rows.map (recordOfRow h) :=
      List.map_congr_left fun r hr => decodeRecord_encodeRow h r hc (hf r hr)
    rw [hrec]
  · intro r hr
    have hlen : (h.columns.map (·.name)).length = r.length := by
      simpa using rowFits_length h.columns r (hf r hr)
    exact List.map_snd_zip _ _ (le_of_eq hlen.symm)

/-- Witness for C1 at a concrete header and row list. -/
theorem transport_decode_roundtrip_witness :
    headerConsistent w1Header = true
      ∧ w1Header.declaredCount = w1Rows.length
      ∧ (∀ r ∈ w1Rows, rowFits w1Header.columns r = true)
      ∧ w1Rows.any (fun r => r.any (· == TypedValue.missing)) = true
      ∧ (decodeFile w1Header (encodeRows w1Header w1Rows)
          = .ok (w1Rows.map (recordOfRow w1Header), [])
        ∧ ∀ r ∈ w1Rows, (recordOfRow w1Header r).map Prod.snd = r) :=
  ⟨by decide, by decide, by decide, by decide,
    transport_decode_roundtrip w1Header w1Rows
      (by decide) (by decide) (by decide) (by decide)⟩

/-- C2: for every transport byte stream with an internally consistent
header whose body holds fewer complete rows than the declared record
count, `decodeFile` returns exactly the complete rows present, together
with the truncation warning, and never fails with a `DecodeError`. -/
theorem transport_truncation_tolerated (h : TransportHeader) (body : List Nat)
    (hc : headerConsistent h = true)
    (htr : body.length / h.rowWidth < h.declaredCount) :
    decodeFile h body
        = .ok ((readRows h.rowWidth h.declaredCount body).map (decodeRecord h),
            [TransportWarning.truncated])
      ∧ ((readRows h.rowWidth h.declaredCount body).map (decodeRecord h)).length
          = body.length / h.rowWidth := by
  have hrw : 0 < h.rowWidth := by
    simp only [headerConsistent, Bool.and_eq_true, bne_iff_ne] at hc
    exact Nat.pos_of_ne_zero hc.2
  have hlen := readRows_length h.rowWidth hrw h.declaredCount body
  constructor
  · unfold decodeFile
    rw [if_pos hc]
    have : (readRows h.rowWidth h.declaredCount body).length < h.declaredCount := by
      rw [hlen]; omega
    simp [this]
  · rw [List.length_map, hlen]; omega

/-- Witness for C2: a header declaring 10 single-byte-row records over a
7-byte body decodes to exactly 7 records plus the truncation warning. -/
theorem transport_truncation_tolerated_witness :
    headerConsistent w2Header = true
      ∧ w2Body.length / w2Header.rowWidth < w2Header.declaredCount
      ∧ (decodeFile w2Header w2Body
          = .ok ((readRows w2Header.rowWidth w2Header.declaredCount w2Body).map
              (decodeRecord w2Header), [TransportWarning.truncated])
        ∧ ((readRows w2Header.rowWidth w2Header.declaredCount w2Body).map
            (decodeRecord w2Header)).length = w2Body.length / w2Header.rowWidth) :=
  ⟨by decide, by decide,
    transport_truncation_tolerated w2Header w2Body (by decide) (by decide)⟩

/-! ### Lemmas about the StatusEncoder and the EpochAligner -/

theorem getD_range_map {β : Type} (n i : Nat) (f : Nat → β) (d : β) (h : i < n) :
    ((List.range n).map f).getD i d = f i := by
  rw [List.getD_eq_getElem?_getD, List.getElem?_map, List.getElem?_range h]
  rfl

theorem epochsPerDay_pos (g : Generation) : 0 < EPOCHS_PER_DAY g := by
  cases g <;> decide

theorem align_ok_of_hasValid (s : SubjectEpochSeries)
    (hv : hasValidEpoch s = true) :
    align s = .ok { subjectId := s.subjectId
                    startWeekday := s.startWeekday
                    days := alignDays s.generation s.epochs } := by
  simp [align, hv]

/-- C4: the StatusEncoder is total — every raw status code of either
generation lands in the unified five-value domain, the newer generation's
documented codes 0..4 carry their fixed table entries, and any raw code
outside a generation's table maps to UNKNOWN rather than raising an
error. -/
theorem statusEncoder_total (g : Generation) (code : Nat) :
    statusEncode g code ∈
        [UnifiedStatus.MISSING, .WAKE_WEAR, .SLEEP_WEAR, .NON_WEAR, .UNKNOWN]
      ∧ (statusEncode .triax 0 = .MISSING ∧ statusEncode .triax 1 = .WAKE_WEAR
          ∧ statusEncode .triax 2 = .SLEEP_WEAR ∧ statusEncode .triax 3 = .NON_WEAR
          ∧ statusEncode .triax 4 = .UNKNOWN)
      ∧ (tableSize g ≤ code → statusEncode g code = .UNKNOWN) := by
  refine ⟨?_, by decide, ?_⟩
  · cases g <;> unfold statusEncode <;> split_ifs <;> simp
  · intro hge
    cases g <;> simp only [tableSize] at hge <;> unfold statusEncode <;>
      split_ifs <;> first | rfl | omega

/-- Witness for C4 at an undocumented raw code of the newer generation. -/
theorem statusEncoder_total_witness :
    tableSize Generation.triax ≤ 9
      ∧ statusEncode Generation.triax 9 = UnifiedStatus.UNKNOWN :=
  ⟨by decide, (statusEncoder_total Generation.triax 9).2.2 (by decide)⟩

/-- C3: the aligner's day slots keep exactly the first CANONICAL_DAYS
buckets in input order — the row always has CANONICAL_DAYS slots (any
later buckets are discarded without rejecting the subject), slot `i` below
both the bucket count and CANONICAL_DAYS is the processed `i`-th earliest
bucket, and every slot at or beyond the bucket count is entirely invalid
in the mask rather than zero-filled as valid. -/
theorem epochAligner_day_edges (s : SubjectEpochSeries)
    (hv : hasValidEpoch s = true) :
    ∃ row, align s = .ok row
      ∧ row.days.length = CANONICAL_DAYS
      ∧ (∀ i, i < dayCount s.generation s.epochs → i < CANONICAL_DAYS →
          row.days.getD i [] = padDay s.generation (bucket s.generation s.epochs i))
      ∧ (∀ j, dayCount s.generation s.epochs ≤ j → j < CANONICAL_DAYS →
          ∀ c ∈ row.days.getD j [], c.valid = false) := by
  refine ⟨_, align_ok_of_hasValid s hv, ?_, ?_, ?_⟩
  · simp [alignDays]
  · intro i h1 h2
    show (alignDays s.generation s.epochs).getD i [] = _
    rw [alignDays, getD_range_map _ _ _ _ h2, if_pos h1]
  · intro j h1 h2 c hc
    have hc' : c ∈ (alignDays s.generation s.epochs).getD j [] := hc
    rw [alignDays, getD_range_map _ _ _ _ h2, if_neg (by omega), invalidDay] at hc'
    rw [List.eq_of_mem_replicate hc']
    rfl

/-- Witness for C3 at a concrete short series. -/
theorem epochAligner_day_edges_witness :
    hasValidEpoch wSeriesA = true
      ∧ ∃ row, align wSeriesA = .ok row
        ∧ row.days.length = CANONICAL_DAYS
        ∧ (∀ i, i < dayCount wSeriesA.generation wSeriesA.epochs →
            i < CANONICAL_DAYS →
            row.days.getD i []
              = padDay wSeriesA.generation (bucket wSeriesA.generation wSeriesA.epochs i))
        ∧ (∀ j, dayCount wSeriesA.generation wSeriesA.epochs ≤ j →
            j < CANONICAL_DAYS →
            ∀ c ∈ row.days.getD j [], c.valid = false) :=
  ⟨by decide, epochAligner_day_edges wSeriesA (by decide)⟩

/-- C5: a subject whose every epoch carries MISSING unified status is
excluded by the aligner with reason "no valid epochs", and the surrounding
run records the exclusion while keeping every other subject's output —
the exclusion never aborts the run. -/
theorem epochAligner_zero_valid_excluded (s : SubjectEpochSeries)
    (hall : ∀ r ∈ s.epochs, statusEncode s.generation r.rawStatus = .MISSING) :
    align s = .error { subjectId := s.subjectId, reason := "no valid epochs" }
      ∧ ∀ pre post,
          alignedRows (pre ++ s :: post) = alignedRows pre ++ alignedRows post
        ∧ exclusions (pre ++ s :: post)
            = exclusions pre
              ++ { subjectId := s.subjectId, reason := "no valid epochs" }
                :: exclusions post := by
  have hnv : hasValidEpoch s = false := by
    rw [hasValidEpoch, List.any_eq_false]
    intro r hr
    simp [hall r hr]
  have herr : align s
      = .error { subjectId := s.subjectId, reason := "no valid epochs" } := by
    simp [align, hnv]
  refine ⟨herr, fun pre post => ⟨?_, ?_⟩⟩
  · simp [alignedRows, rowOf, List.filterMap_append, List.filterMap_cons, herr,
      Except.toOption]
  · simp [exclusions, exclOf, List.filterMap_append, List.filterMap_cons, herr]

/-- Witness for C5 at a concrete all-MISSING series. -/
theorem epochAligner_zero_valid_excluded_witness :
    (∀ r ∈ wSeriesB.epochs,
        statusEncode wSeriesB.generation r.rawStatus = UnifiedStatus.MISSING)
      ∧ (align wSeriesB
          = .error { subjectId := wSeriesB.subjectId, reason := "no valid epochs" }
        ∧ ∀ pre post,
            alignedRows (pre ++ wSeriesB :: post) = alignedRows pre ++ alignedRows post
          ∧ exclusions (pre ++ wSeriesB :: post)
              = exclusions pre
                ++ { subjectId := wSeriesB.subjectId, reason := "no valid epochs" }
                  :: exclusions post) :=
  ⟨by decide, epochAligner_zero_valid_excluded wSeriesB (by decide)⟩

/-- C7: day slot 0 of an aligned row is built from the subject's own first
calendar-day bucket whatever the starting weekday was; the true starting
weekday is carried exactly once as scalar metadata of the row; and
realigning the same series under any other starting weekday changes only
that scalar, never the tensor content — tensor position encodes nothing
about the weekday. -/
theorem epochAligner_weekday_metadata (s : SubjectEpochSeries) (w : Nat)
    (hv : hasValidEpoch s = true) :
    ∃ row, align s = .ok row
      ∧ row.startWeekday = s.startWeekday
      ∧ row.days.getD 0 [] = padDay s.generation (bucket s.generation s.epochs 0)
      ∧ align { s with startWeekday := w } = .ok { row with startWeekday := w } := by
  have hne : s.epochs ≠ [] := by
    intro he
    rw [hasValidEpoch, he] at hv
    simp at hv
  have hdc : 0 < dayCount s.generation s.epochs := by
    have hE := epochsPerDay_pos s.generation
    have hlen : 0 < s.epochs.length := List.length_pos.mpr hne
    exact Nat.div_pos (by omega) hE
  refine ⟨_, align_ok_of_hasValid s hv, rfl, ?_, ?_⟩
  · show (alignDays s.generation s.epochs).getD 0 [] = _
    rw [alignDays, getD_range_map _ _ _ _ (by decide), if_pos hdc]
  · have hv' : hasValidEpoch { s with startWeekday := w } = true := by
      rw [show hasValidEpoch { s with startWeekday := w } = hasValidEpoch s from rfl]
      exact hv
    rw [align_ok_of_hasValid _ hv']

/-- Witness for C7 at a concrete series and replacement weekday. -/
theorem epochAligner_weekday_metadata_witness :
    hasValidEpoch wSeriesA = true
      ∧ ∃ row, align wSeriesA = .ok row
        ∧ row.startWeekday = wSeriesA.startWeekday
        ∧ row.days.getD 0 []
            = padDay wSeriesA.generation (bucket wSeriesA.generation wSeriesA.epochs 0)
        ∧ align { wSeriesA with startWeekday := 5 }
            = .ok { row with startWeekday := 5 } :=
  ⟨by decide, epochAligner_weekday_metadata wSeriesA 5 (by decide)⟩

/-! ### MortalityFixedDecoder and SchemaResolver theorems -/

/-- C8: the MortalityFixedDecoder fails with a `SchemaMismatch` whenever
some row's length differs from the externally supplied fixed width, while
an absent mortality file makes the pipeline step skip parsing and report
the mortality variables as structurally unavailable instead of failing. -/
theorem mortality_schema_mismatch (layout : FixedLayout)
    (rows : List (List Nat)) (r : List Nat)
    (hr : r ∈ rows) (hlen : r.length ≠ layout.rowWidth) :
    (∃ e, decodeMortFile layout rows = .error e)
      ∧ mortalityStep layout none = .ok none := by
  refine ⟨?_, rfl⟩
  have hrow : decodeMortRow layout r
      = .error { rowLength := r.length, expected := layout.rowWidth } := by
    rw [decodeMortRow, if_neg hlen]
  clear hlen
  induction rows with
  | nil => cases hr
  | cons a rs ih =>
      rcases List.mem_cons.mp hr with rfl | hmem
      · exact ⟨_, by rw [decodeMortFile, hrow]⟩
      · cases ha : decodeMortRow layout a with
        | error e => exact ⟨e, by rw [decodeMortFile, ha]⟩
        | ok m =>
            rcases ih hmem with ⟨e, he⟩
            exact ⟨e, by rw [decodeMortFile, ha, he]⟩

/-- Witness for C8 at a concrete layout and a file whose second row is one
byte short. -/
theorem mortality_schema_mismatch_witness :
    [1, 2, 3] ∈ w8Rows
      ∧ List.length [1, 2, 3] ≠ w8Layout.rowWidth
      ∧ ((∃ e, decodeMortFile w8Layout w8Rows = .error e)
        ∧ mortalityStep w8Layout none = .ok none) :=
  ⟨by decide, by decide,
    mortality_schema_mismatch w8Layout w8Rows [1, 2, 3] (by decide) (by decide)⟩

theorem key_eq_of_nodup {β : Type} (l : List (Nat × β))
    (hnd : (l.map (·.1)).Nodup)
    (p q : Nat × β) (hp : p ∈ l) (hq : q ∈ l) (hk : p.1 = q.1) : p = q := by
  induction l with
  | nil => cases hp
  | cons a t ih =>
      simp only [List.map_cons, List.nodup_cons] at hnd
      rcases List.mem_cons.mp hp with rfl | hp'
      · rcases List.mem_cons.mp hq with rfl | hq'
        · rfl
        · exact absurd (hk ▸ List.mem_map_of_mem (·.1) hq') hnd.1
      · rcases List.mem_cons.mp hq with rfl | hq'
        · exact absurd (hk ▸ List.mem_map_of_mem (·.1) hp') hnd.1
        · exact ih hnd.2 hp' hq'

theorem resolveVar_none_iff (alts : List String)
    (cols : List (String × ColumnData)) :
    resolveVar alts cols = none ↔ ∀ a ∈ alts, lookupCol a cols = none := by
  induction alts with
  | nil => simp [resolveVar]
  | cons a rest ih =>
      rw [resolveVar]
      cases ha : lookupCol a cols with
      | some d =>
          simp only [List.mem_cons]
          constructor
          · intro h; cases h
          · intro h
            exact absurd ha (by rw [h a (Or.inl rfl)]; simp)
      | none =>
          simp only [List.mem_cons, ih]
          constructor
          · intro h b hb
            rcases hb with rfl | hb
            · exact ha
            · exact h b hb
          · intro h b hb
            exact h b (Or.inr hb)

theorem resolveVar_first (alts : List String)
    (cols : List (String × ColumnData))
    (hsome : ∃ a ∈ alts, (lookupCol a cols).isSome) :
    ∃ pre a post d, alts = pre ++ a :: post
      ∧ (∀ b ∈ pre, lookupCol b cols = none)
      ∧ lookupCol a cols = some d
      ∧ resolveVar alts cols = some (a, d) := by
  induction alts with
  | nil => simp at hsome
  | cons a rest ih =>
      cases ha : lookupCol a cols with
      | some d =>
          exact ⟨[], a, rest, d, rfl, by simp, ha, by rw [resolveVar, ha]⟩
      | none =>
          have hsome' : ∃ b ∈ rest, (lookupCol b cols).isSome := by
            rcases hsome with ⟨b, hb, hbs⟩
            rcases List.mem_cons.mp hb with rfl | hb'
            · rw [ha] at hbs; cases hbs
            · exact ⟨b, hb', hbs⟩
          rcases ih hsome' with ⟨pre, x, post, d, heq, hpre, hx, hres⟩
          refine ⟨a :: pre, x, post, d, by rw [heq]; rfl, ?_, hx, ?_⟩
          · intro b hb
            rcases List.mem_cons.mp hb with rfl | hb'
            · exact ha
            · exact hpre b hb'
          · rw [resolveVar, ha, hres]

/-- C6: per survey year the SchemaResolver resolves a logical variable by
its first present alternative code — when some alternative exists in the
year's decoded columns the year resolves with the earliest such code and
is never recorded `VariableUnavailable`, and the year is recorded
`VariableUnavailable` exactly when no alternative code resolves. -/
theorem schemaResolver_first_alternative (alts : List String)
    (years : List (Nat × List (String × ColumnData)))
    (y : Nat) (cols : List (String × ColumnData))
    (hmem : (y, cols) ∈ years)
    (hnd : (years.map (·.1)).Nodup) :
    ((∃ a ∈ alts, (lookupCol a cols).isSome) →
        (∃ pre a post d, alts = pre ++ a :: post
          ∧ (∀ b ∈ pre, lookupCol b cols = none)
          ∧ lookupCol a cols = some d
          ∧ resolveVar alts cols = some (a, d))
        ∧ y ∉ unavailableYears alts years)
      ∧ ((∀ a ∈ alts, lookupCol a cols = none) →
          resolveVar alts cols = none ∧ y ∈ unavailableYears alts years) := by
  constructor
  · intro hsome
    refine ⟨resolveVar_first alts cols hsome, ?_⟩
    intro hy
    rcases List.mem_map.mp hy with ⟨p, hpf, hpy⟩
    rcases List.mem_filter.mp hpf with ⟨hpmem, hpnone⟩
    have hpe : p = (y, cols) := key_eq_of_nodup years hnd p (y, cols) hpmem hmem hpy
    rcases resolveVar_first alts cols hsome with ⟨_, _, _, _, _, _, _, hres⟩
    rw [hpe] at hpnone
    simp only [hres, Option.isNone_some] at hpnone
    cases hpnone
  · intro hnone
    have hres : resolveVar alts cols = none := (resolveVar_none_iff alts cols).mpr hnone
    refine ⟨hres, ?_⟩
    apply List.mem_map.mpr
    exact ⟨(y, cols), List.mem_filter.mpr ⟨hmem, by simp [hres]⟩, rfl⟩

/-- Witness for C6: year 1 holds only the second alternative code and
resolves with it; year 2 holds neither and is recorded unavailable. -/
theorem schemaResolver_first_alternative_witness :
    ((1, w6Cols1) ∈ w6Years ∧ (w6Years.map (·.1)).Nodup
        ∧ (∃ a ∈ w6Alts, (lookupCol a w6Cols1).isSome))
      ∧ ((∃ pre a post d, w6Alts = pre ++ a :: post
            ∧ (∀ b ∈ pre, lookupCol b w6Cols1 = none)
            ∧ lookupCol a w6Cols1 = some d
            ∧ resolveVar w6Alts w6Cols1 = some (a, d))
          ∧ 1 ∉ unavailableYears w6Alts w6Years) :=
  ⟨⟨by decide, by decide, by decide⟩,
    (schemaResolver_first_alternative w6Alts w6Years 1 w6Cols1
      (by decide) (by decide)).1 (by decide)⟩

/-! ### Determinism of the final assembly -/

theorem rowOf_eq (s : SubjectEpochSeries) (r : AlignedRow)
    (h : rowOf s = some r) :
    r = { subjectId := s.subjectId
          startWeekday := s.startWeekday
          days := alignDays s.generation s.epochs } := by
  rw [rowOf, align] at h
  by_cases hv : hasValidEpoch s
  · rw [if_pos hv] at h
    simp only [Except.toOption, Option.some.injEq] at h
    exact h.symm
  · rw [if_neg hv] at h
    simp [Except.toOption] at h

theorem rowOf_subjectId (s : SubjectEpochSeries) (r : AlignedRow)
    (h : rowOf s = some r) : r.subjectId = s.subjectId := by
  rw [rowOf_eq s r h]

theorem exclOf_subjectId (s : SubjectEpochSeries) (e : SubjectExcluded)
    (h : exclOf s = some e) : e.subjectId = s.subjectId := by
  rw [exclOf, align] at h
  by_cases hv : hasValidEpoch s
  · rw [if_pos hv] at h
    simp at h
  · rw [if_neg hv] at h
    simp only [Option.some.injEq] at h
    rw [← h]

theorem map_filterMap_sublist {α β : Type} (f : α → Option β)
    (keyA : α → Nat) (keyB : β → Nat)
    (hkey : ∀ a b, f a = some b → keyB b = keyA a) (l : List α) :
    List.Sublist ((l.filterMap f).map keyB) (l.map keyA) := by
  induction l with
  | nil => simp
  | cons a t ih =>
      rw [List.filterMap_cons, List.map_cons]
      cases hf : f a with
      | none => exact ih.cons (keyA a)
      | some b =>
          rw [List.map_cons, hkey a b hf]
          exact ih.cons₂ (keyA a)

theorem sortByKey_eq_of_perm {α : Type} (key : α → Nat) (l₁ l₂ : List α)
    (hp : List.Perm l₁ l₂) (hnd : (l₁.map key).Nodup) :
    List.insertionSort (bySubject key) l₁ = List.insertionSort (bySubject key) l₂ := by
  haveI : IsTotal α (bySubject key) := ⟨fun a b => Nat.le_total (key a) (key b)⟩
  haveI : IsTrans α (bySubject key) := ⟨fun a b c => Nat.le_trans⟩
  haveI : IsAntisymm α (fun a b => key a < key b) :=
    ⟨fun a b h1 h2 => absurd h2 (Nat.lt_asymm h1)⟩
  have hp₁ : List.Perm (List.insertionSort (bySubject key) l₁) l₁ :=
    List.perm_insertionSort _ _
  have hp₂ : List.Perm (List.insertionSort (bySubject key) l₂) l₂ :=
    List.perm_insertionSort _ _
  have hps : List.Perm (List.insertionSort (bySubject key) l₁)
      (List.insertionSort (bySubject key) l₂) :=
    hp₁.trans (hp.trans hp₂.symm)
  have hstrict : ∀ (s : List α), List.Sorted (bySubject key) s →
      (s.map key).Nodup → s.Pairwise (fun a b => key a < key b) := by
    intro s hsort hnodup
    have hne : s.Pairwise (fun a b => key a ≠ key b) := List.pairwise_map.mp hnodup
    exact (hsort.and hne).imp fun h => lt_of_le_of_ne h.1 h.2
  have hnd₂ : (l₂.map key).Nodup := ((hp.map key).nodup_iff).mp hnd
  have hs₁ := hstrict _ (List.sorted_insertionSort _ l₁)
    (((hp₁.map key).nodup_iff).mpr hnd)
  have hs₂ := hstrict _ (List.sorted_insertionSort _ l₂)
    (((hp₂.map key).nodup_iff).mpr hnd₂)
  exact List.eq_of_perm_of_sorted hps hs₁ hs₂

/-- C9: the final pipeline output is deterministic — for any two task
completion orders (permutations) of the same subject set with pairwise
distinct subject identifiers, the assembled rows and the assembled
exclusion list are identical, because ordering by subject identifier is
applied once after assembly rather than inherited from completion order. -/
theorem pipeline_deterministic (l₁ l₂ : List SubjectEpochSeries)
    (hperm : List.Perm l₁ l₂)
    (hnd : (l₁.map (·.subjectId)).Nodup) :
    finalOutput l₁ = finalOutput l₂ := by
  have hrows : List.Perm (alignedRows l₁) (alignedRows l₂) := hperm.filterMap rowOf
  have hexcl : List.Perm (exclusions l₁) (exclusions l₂) := hperm.filterMap exclOf
  have hndr : ((alignedRows l₁).map (·.subjectId)).Nodup :=
    hnd.sublist (map_filterMap_sublist rowOf (·.subjectId) (·.subjectId)
      rowOf_subjectId l₁)
  have hnde : ((exclusions l₁).map (·.subjectId)).Nodup :=
    hnd.sublist (map_filterMap_sublist exclOf (·.subjectId) (·.subjectId)
      exclOf_subjectId l₁)
  unfold finalOutput
  rw [sortByKey_eq_of_perm _ _ _ hrows hndr,
    sortByKey_eq_of_perm _ _ _ hexcl hnde]

/-- Witness for C9 at two completion orders of two concrete subjects. -/
theorem pipeline_deterministic_witness :
    List.Perm [wSeriesA, wSeriesB] [wSeriesB, wSeriesA]
      ∧ ([wSeriesA, wSeriesB].map (·.subjectId)).Nodup
      ∧ finalOutput [wSeriesA, wSeriesB] = finalOutput [wSeriesB, wSeriesA] :=
  ⟨List.Perm.swap wSeriesB wSeriesA [], by decide,
    pipeline_deterministic [wSeriesA, wSeriesB] [wSeriesB, wSeriesA]
      (List.Perm.swap wSeriesB wSeriesA []) (by decide)⟩

/-! ### Shape and mask invariants of the persisted archive -/

theorem statusCode_pos_iff (u : UnifiedStatus) :
    (u != UnifiedStatus.MISSING) = decide (0 < statusCode u) := by
  cases u <;> rfl

theorem alignDays_cells_valid (g : Generation) (epochs : List EpochReading) :
    ∀ day ∈ alignDays g epochs, ∀ c ∈ day,
      c.valid = decide (0 < statusCode c.status) := by
  intro day hday c hc
  rw [alignDays] at hday
  rcases List.mem_map.mp hday with ⟨i, _hi, rfl⟩
  by_cases hlt : i < dayCount g epochs
  · rw [if_pos hlt] at hc
    rcases List.mem_append.mp hc with hmem | hmem
    · rcases List.mem_map.mp hmem with ⟨e, _he, rfl⟩
      exact statusCode_pos_iff (statusEncode g e.rawStatus)
    · rw [List.eq_of_mem_replicate hmem]
      rfl
  · rw [if_neg hlt, invalidDay] at hc
    rw [List.eq_of_mem_replicate hc]
    rfl

/-- C10: in the persisted newer-generation archive the acceleration,
ambient-light and unified-status arrays share one leading shape and one
subject row order (all are maps over the same aligned rows), the per-row
inner shapes agree, and the boolean validity mask is exactly the
pointwise comparison `categ > 0` — an epoch is valid iff its unified
status is not MISSING. -/
theorem triaxArchive_shared_shape_mask (subjects : List SubjectEpochSeries) :
    (buildArchive subjects).triax.length = (buildArchive subjects).seqn.length
      ∧ (buildArchive subjects).lumin.length = (buildArchive subjects).seqn.length
      ∧ (buildArchive subjects).categ.length = (buildArchive subjects).seqn.length
      ∧ (∀ i, ((buildArchive subjects).triax.getD i []).length
            = ((buildArchive subjects).categ.getD i []).length
          ∧ ((buildArchive subjects).lumin.getD i []).length
            = ((buildArchive subjects).categ.getD i []).length)
      ∧ maskRows subjects
          = (buildArchive subjects).categ.map (List.map fun v => decide (0 < v)) := by
  refine ⟨by simp [buildArchive], by simp [buildArchive], by simp [buildArchive],
    ?_, ?_⟩
  · intro i
    rw [buildArchive]
    cases hro : (alignedRows subjects)[i]? with
    | none =>
        constructor <;>
          simp [List.getD_eq_getElem?_getD, List.getElem?_map, hro]
    | some r =>
        constructor <;>
          simp [List.getD_eq_getElem?_getD, List.getElem?_map, hro]
  · rw [maskRows, buildArchive]
    simp only [List.map_map]
    apply List.map_congr_left
    intro r hr
    rcases List.mem_filterMap.mp hr with ⟨s, _hs, hrs⟩
    simp only [Function.comp]
    rw [List.map_map]
    apply List.map_congr_left
    intro c hc
    have hdays : r.days = alignDays s.generation s.epochs := by
      rw [rowOf_eq s r hrs]
    rw [flatCells, hdays] at hc
    rcases List.mem_flatten.mp hc with ⟨day, hday, hcd⟩
    exact alignDays_cells_valid s.generation s.epochs day hday c hcd

end Nhanes
